import Mathlib

/-!
# Watcher bookkeeping of `pkg/watch/watcher_darwin.go`

A shallow embedding of the darwin file watcher: the registry of watched roots
held in `stream.Paths`, the start/restart protocol of `Add`, the dispatch
`loop` with its one-time filter of the spurious "item created" record, and
`Close`.

Modelling choices.

* Go `string` paths are Lean `String`s. `filepath.Clean` reads bytes and
  tests them against the ASCII bytes `/` and `.` only, which no byte of a
  longer UTF-8 sequence equals, so reading characters gives the same result.
* The native stream (`fsevents.EventStream`) is external. Its `Paths` field is
  kept as data; the calls `Start`, `Restart` and `Stop` on it, and the
  `go d.loop()` statement, are recorded in order in a ghost field `trace`.
* A channel is reduced to whether it has been closed. `close` of a closed
  channel panics, as the Go language defines it.
* The mutex `sm` serialises `Add`, `Close` and `isTrackingPath`; every one of
  them is therefore an atomic step on the watcher state, which is what the
  functions below are.
* The dispatch loop is given what its successive `select`s receive, and each
  record it processes comes with the state of the watcher at that moment, so
  that a run of the loop interleaved with `Add` calls is covered. Every send
  on `d.events` is taken to complete: the events channel is unbuffered, and a
  receiver is assumed.
* `filepath.Join` and `filepath.Clean` belong to the Go standard library; they
  are written out here after their Unix implementation.
* `pathIsChildOf` is declared in another file of the package. `Add` takes it
  as a parameter, so that what is proved of `Add` holds for every
  implementation of it.
-/

namespace Watch

/-! ## Go standard library: `path/filepath` on Unix -/

/-- The test `os.IsPathSeparator` on Unix. -/
def isPathSeparator (c : Char) : Bool := c == '/'

/-- The output buffer of `filepath.Clean` (`lazybuf`): `w` is the index of the
next byte to write, and the bytes below `w` are the output so far. The
copy-on-write optimisation of the original is left out: `buf` always holds
every byte written. -/
structure lazybuf where
  buf : List Char
  w : Nat
deriving DecidableEq, Repr

/-- The byte at index `i` of the buffer, `lazybuf.index`. -/
def lazybuf.index (b : lazybuf) (i : Nat) : Char := b.buf.getD i '/'

/-- Write `c` at index `w` and advance `w`, `lazybuf.append`. -/
def lazybuf.append (b : lazybuf) (c : Char) : lazybuf :=
  { buf := b.buf.take b.w ++ [c], w := b.w + 1 }

/-- The bytes written, `lazybuf.string`. -/
def lazybuf.string (b : lazybuf) : List Char := b.buf.take b.w

/-- The inner loop of the `..` case of `Clean`:
`for out.w > dotdot && !os.IsPathSeparator(out.index(out.w)) { out.w-- }`,
from the value `w` of `out.w` on; the result is the value of `out.w` at the
exit of the loop. -/
def backtrack (out : lazybuf) (dotdot : Nat) : Nat → Nat
  | 0 => 0
  | w + 1 =>
    if w + 1 > dotdot && !isPathSeparator (out.index (w + 1)) then
      backtrack out dotdot w
    else w + 1

/-- The `..` case of `Clean`, after `r += 2`: remove the last element when the
buffer can backtrack, append `..` when it cannot and the path is not rooted.
Returns the buffer and the new value of `dotdot`. -/
def cleanDotDot (rooted : Bool) (out : lazybuf) (dotdot : Nat) : lazybuf × Nat :=
  if out.w > dotdot then
    ({ out with w := backtrack out dotdot (out.w - 1) }, dotdot)
  else if !rooted then
    let out1 := if out.w > 0 then out.append '/' else out
    let out2 := (out1.append '.').append '.'
    (out2, out2.w)
  else (out, dotdot)

/-- The main loop `for r < n` of `Clean`, reading the rest of the path
`path[r:]`. `inElem` is true while the inner loop of the default case
(`copy element`) is running. -/
def cleanLoop (rooted : Bool) : Bool → lazybuf → Nat → List Char → lazybuf
  | _, out, _, [] => out
  | true, out, dotdot, c :: rest =>
    -- copy element: `for ; r < n && !os.IsPathSeparator(path[r]); r++`
    if isPathSeparator c then cleanLoop rooted false out dotdot rest
    else cleanLoop rooted true (out.append c) dotdot rest
  | false, out, dotdot, c :: rest =>
    if isPathSeparator c then
      -- empty path element
      cleanLoop rooted false out dotdot rest
    else if c == '.' && (rest.isEmpty || isPathSeparator (rest.headD '/')) then
      -- . element
      cleanLoop rooted false out dotdot rest
    else
      match rest with
      | c1 :: rest2 =>
        if c == '.' && c1 == '.' && (rest2.isEmpty || isPathSeparator (rest2.headD '/')) then
          -- .. element: remove to last separator
          let r := cleanDotDot rooted out dotdot
          cleanLoop rooted false r.1 r.2 rest2
        else
          -- real path element: add slash if needed, then copy the element
          let out1 :=
            if (rooted && out.w != 1) || (!rooted && out.w != 0) then out.append '/' else out
          cleanLoop rooted true (out1.append c) dotdot (c1 :: rest2)
      | [] =>
        let out1 :=
          if (rooted && out.w != 1) || (!rooted && out.w != 0) then out.append '/' else out
        cleanLoop rooted true (out1.append c) dotdot []

/-- The function `filepath.Clean` on Unix (no volume name), on the bytes of the
path. -/
def cleanChars (path : List Char) : List Char :=
  match path with
  | [] => ['.']
  | c :: rest =>
    let rooted := isPathSeparator c
    let out :=
      if rooted then
        cleanLoop true false (lazybuf.append ⟨[], 0⟩ '/') 1 rest
      else
        cleanLoop false false ⟨[], 0⟩ 0 (c :: rest)
    -- Turn empty string into "."
    let out := if out.w == 0 then out.append '.' else out
    out.string

/-- The function `filepath.Clean`. -/
def filepathClean (path : String) : String := String.mk (cleanChars path.data)

/-- The function `strings.Join(elem, "/")`. -/
def stringsJoin : List String → String
  | [] => ""
  | [e] => e
  | e :: es => e ++ "/" ++ stringsJoin es

/-- The function `filepath.Join` on Unix: the elements from the first
non-empty one on are joined with the separator and the result is cleaned; the
result is empty when every element is empty. -/
def filepathJoin : List String → String
  | [] => ""
  | e :: es => if e != "" then filepathClean (stringsJoin (e :: es)) else filepathJoin es

/-! ## Go channels -/

/-- What a goroutine can die of in this file. -/
inductive Panic where
  /-- The run-time error "close of closed channel". -/
  | closeOfClosedChannel
deriving DecidableEq, Repr

/-- A channel, reduced to whether `close` has been applied to it. -/
structure Chan where
  closed : Bool
deriving DecidableEq, Repr

/-- The statement `make(chan T)`. -/
def makeChan : Chan := { closed := false }

/-- The builtin `close(c)`: it panics on a channel that is already closed. -/
def closeChan (c : Chan) : Except Panic Chan :=
  if c.closed then .error .closeOfClosedChannel else .ok { closed := true }

/-! ## The data of the watcher -/

/-- The flag `fsevents.ItemCreated` (`kFSEventStreamEventFlagItemCreated`). -/
def ItemCreated : Nat := 0x100

/-- The flag set `fsevents.FileEvents` (`kFSEventStreamCreateFlagFileEvents`). -/
def FileEvents : Nat := 0x10

/-- A raw record of the native backend, `fsevents.Event`. -/
structure Event where
  Path : String
  Flags : Nat
  ID : Nat
deriving DecidableEq, Repr

/-- The event the caller receives. -/
structure FileEvent where
  Path : String
deriving DecidableEq, Repr

/-- The fields of `fsevents.EventStream` the watcher sets: the watched roots,
the latency in nanoseconds and the creation flags. -/
structure EventStream where
  Paths : List String
  Latency : Nat
  Flags : Nat
deriving DecidableEq, Repr

/-- What the watcher does to the outside, in the order it does it. -/
inductive Effect where
  /-- The statement `go d.loop()`. -/
  | spawnLoop
  /-- The call `es.Start()`. -/
  | Start
  /-- The call `es.Restart()`. -/
  | Restart
  /-- The call `d.stream.Stop()`. -/
  | Stop
deriving DecidableEq, Repr

/-- The struct `darwinNotify`, with the effects performed so far in the ghost
field `trace`. The mutex has no field: each operation below is one critical
section. -/
structure darwinNotify where
  stream : EventStream
  events : Chan
  errors : Chan
  stop : Chan
  trace : List Effect
deriving DecidableEq, Repr

/-- The error type of the Go signatures; no operation of this file builds
one. -/
abbrev GoError := String

/-! ## The operations -/

/-- The function `NewWatcher`: an unstarted stream with no path, three fresh
channels, and a nil error. -/
def NewWatcher : darwinNotify × Option GoError :=
  ({ stream := { Paths := [], Latency := 1000000, Flags := FileEvents },
     events := makeChan, errors := makeChan, stop := makeChan, trace := [] }, none)

/-- The range loop of `isTrackingPath` over the registry: true at the first
entry equal to `path`, false when there is none. -/
def isTrackingPathRange (path : String) : List String → Bool
  | [] => false
  | p :: ps => if p == path then true else isTrackingPathRange path ps

/-- The method `isTrackingPath`. The watcher is returned with the answer; the
method writes none of its fields. -/
def isTrackingPath (d : darwinNotify) (path : String) : darwinNotify × Bool :=
  (d, isTrackingPathRange path d.stream.Paths)

/-- The range loop of `Add` over the registry: true when it reaches
`return nil`, that is when `name` is a child of some entry. -/
def isCovered (pathIsChildOf : String → String → Bool) (name : String) : List String → Bool
  | [] => false
  | parent :: ps => if pathIsChildOf name parent then true else isCovered pathIsChildOf name ps

/-- The method `Add`. `pathIsChildOf` is the helper of the same name, declared
elsewhere in the package. The returned error is always nil. -/
def Add (pathIsChildOf : String → String → Bool) (d : darwinNotify) (name : String) :
    darwinNotify × Option GoError :=
  let es := d.stream
  if isCovered pathIsChildOf name es.Paths then (d, none)
  else
    let es1 := { es with Paths := es.Paths ++ [name] }
    if es1.Paths.length == 1 then
      ({ d with stream := es1, trace := d.trace ++ [Effect.spawnLoop, Effect.Start] }, none)
    else
      ({ d with stream := es1, trace := d.trace ++ [Effect.Restart] }, none)

/-- The method `Close`: stop the stream, close `errors`, close `stop`. A panic
of `close` ends the call. -/
def Close (d : darwinNotify) : Except Panic (darwinNotify × Option GoError) := do
  let d1 := { d with trace := d.trace ++ [Effect.Stop] }
  let errors ← closeChan d1.errors
  let d2 := { d1 with errors := errors }
  let stop ← closeChan d2.stop
  let d3 := { d2 with stop := stop }
  pure (d3, none)

/-- The body of `for _, e := range events` in `loop`, run with the watcher in
state `d`: the new contents of the map `ignoredSpuriousEvents` (the keys set to
true) and what is sent on `d.events`, nothing when the body ends in
`continue`. -/
def loopBody (d : darwinNotify) (ignoredSpuriousEvents : List String) (e : Event) :
    List String × Option FileEvent :=
  let e := { e with Path := filepathJoin ["/", e.Path] }
  if e.Flags &&& ItemCreated == ItemCreated then
    if !ignoredSpuriousEvents.contains e.Path && (isTrackingPath d e.Path).2 then
      (e.Path :: ignoredSpuriousEvents, none)
    else (ignoredSpuriousEvents, some { Path := e.Path })
  else (ignoredSpuriousEvents, some { Path := e.Path })

/-- The range loop over one batch. Each record comes with the state the
watcher is in when its body runs: `Add` may run between two bodies. The result
is the map after the batch and the outcome of each record in order. -/
def loopEvents (ignoredSpuriousEvents : List String) :
    List (darwinNotify × Event) → List String × List (Option FileEvent)
  | [] => (ignoredSpuriousEvents, [])
  | (d, e) :: rest =>
    let r := loopBody d ignoredSpuriousEvents e
    let rs := loopEvents r.1 rest
    (rs.1, r.2 :: rs.2)

/-- What one `select` of `loop` can receive. -/
inductive Select where
  /-- The case `<-d.stop`. -/
  | stop
  /-- The case `events, ok := <-d.stream.Events` with `ok` false. -/
  | closed
  /-- The case `events, ok := <-d.stream.Events` with `ok` true. -/
  | recv (events : List (darwinNotify × Event))
deriving DecidableEq, Repr

/-- The `for` loop of `loop` from the map `ignoredSpuriousEvents` on, over
what its successive `select`s receive: the outcome of every record whose body
ran, in order. The loop returns at `stop` and `closed`; at the end of the list
it is waiting in `select`. -/
def loopFrom (ignoredSpuriousEvents : List String) : List Select → List (Option FileEvent)
  | [] => []
  | .stop :: _ => []
  | .closed :: _ => []
  | .recv events :: rest =>
    let r := loopEvents ignoredSpuriousEvents events
    r.2 ++ loopFrom r.1 rest

/-- The method `loop`: it starts from an empty map. -/
def loop (received : List Select) : List (Option FileEvent) := loopFrom [] received

/-- The records whose body runs in `loop`: those of the batches received
before the first `stop` or `closed`. -/
def processed : List Select → List (darwinNotify × Event)
  | [] => []
  | .stop :: _ => []
  | .closed :: _ => []
  | .recv events :: rest => events ++ processed rest

/-- The events sent on `d.events`, in the order of the sends. -/
def sent (outcomes : List (Option FileEvent)) : List FileEvent := outcomes.reduceOption

/-- The path a record is delivered under. -/
def normalized (e : Event) : String := filepathJoin ["/", e.Path]

/-- The test `e.Flags&fsevents.ItemCreated == fsevents.ItemCreated`. -/
def isItemCreated (e : Event) : Bool := e.Flags &&& ItemCreated == ItemCreated

/-- The watcher after a sequence of `Add` calls. -/
def addAll (pathIsChildOf : String → String → Bool) (d : darwinNotify) : List String → darwinNotify
  | [] => d
  | name :: names => addAll pathIsChildOf (Add pathIsChildOf d name).1 names

/-! ## The containment helper -/

/-- The elements of a path read so far: `cur` is the element being read. -/
def pathElementsFrom (cur : List Char) : List Char → List (List Char)
  | [] => if cur.isEmpty then [] else [cur]
  | c :: rest =>
    if c == '/' then
      if cur.isEmpty then pathElementsFrom [] rest else cur :: pathElementsFrom [] rest
    else pathElementsFrom (cur ++ [c]) rest

/-- The elements of a path: the non-empty pieces between separators. -/
def pathElements (path : String) : List (List Char) := pathElementsFrom [] path.data

/-- Modelled from the spec: `pathIsChildOf` is declared in a file of the
package that is not among the sources. The spec gives its meaning:
`pathIsChildOf(P2, P1)` holds when P2 is equal to, or a descendant of, P1. -/
def pathIsChildOf (path parent : String) : Bool :=
  path == parent || (pathElements parent).isPrefixOf (pathElements path)

/-! ## Invariants and the example watcher -/

/-- What holds of the trace in every state reached by `Add` calls from a fresh
watcher: nothing has happened while the registry is empty; afterwards the loop
was spawned once, the stream started once, and restarted once for each entry
after the first. -/
def startedOnce (d : darwinNotify) : Prop :=
  (d.stream.Paths = [] ∧ d.trace = []) ∨
  (d.stream.Paths ≠ [] ∧ d.trace.count Effect.spawnLoop = 1 ∧ d.trace.count Effect.Start = 1 ∧
    d.trace.count Effect.Restart + 1 = d.stream.Paths.length)

/-- The buffer of a rooted path: it begins with the separator, and `w` is
beyond it and not below `dotdot`. -/
def rootedBuf (out : lazybuf) (dotdot : Nat) : Prop :=
  1 ≤ dotdot ∧ dotdot ≤ out.w ∧ out.buf.head? = some '/'

/-- The watcher after `Add "/a"` on a fresh watcher: its registry is `["/a"]`. -/
def watchingA : darwinNotify := (Add pathIsChildOf NewWatcher.1 "/a").1

/-! ## The registry and the start/restart protocol -/

theorem isCovered_eq_true_iff (childOf : String → String → Bool) (name : String)
    (ps : List String) :
    isCovered childOf name ps = true ↔ ∃ parent ∈ ps, childOf name parent = true := by
  induction ps with
  | nil => simp [isCovered]
  | cons p ps ih =>
    by_cases h : childOf name p = true
    · simp [isCovered, h]
    · simp [isCovered, h, ih]

theorem isCovered_eq_false_iff (childOf : String → String → Bool) (name : String)
    (ps : List String) :
    isCovered childOf name ps = false ↔ ∀ parent ∈ ps, childOf name parent = false := by
  induction ps with
  | nil => simp [isCovered]
  | cons p ps ih =>
    by_cases h : childOf name p = true
    · simp [isCovered, h]
    · simp [isCovered, h, ih]

theorem Add_of_covered (childOf : String → String → Bool) (d : darwinNotify) (name : String)
    (h : isCovered childOf name d.stream.Paths = true) : Add childOf d name = (d, none) := by
  simp [Add, h]

theorem Add_of_not_covered_empty (childOf : String → String → Bool) (d : darwinNotify)
    (name : String) (h : isCovered childOf name d.stream.Paths = false)
    (he : d.stream.Paths = []) :
    Add childOf d name =
      ({ d with stream := { d.stream with Paths := d.stream.Paths ++ [name] },
                trace := d.trace ++ [Effect.spawnLoop, Effect.Start] }, none) := by
  simp only [Add, h]
  simp [he]

theorem Add_of_not_covered_nonempty (childOf : String → String → Bool) (d : darwinNotify)
    (name : String) (h : isCovered childOf name d.stream.Paths = false)
    (he : d.stream.Paths ≠ []) :
    Add childOf d name =
      ({ d with stream := { d.stream with Paths := d.stream.Paths ++ [name] },
                trace := d.trace ++ [Effect.Restart] }, none) := by
  have hl : d.stream.Paths.length ≠ 0 := by
    intro h0
    exact he (List.length_eq_zero.mp h0)
  simp only [Add, h]
  simp [hl]

/-- C1. Adding a path that is a child of (equal to, or below) some entry of the
registry returns a nil error and the watcher it was given: the registry is the
same list, and the trace has no new `Start`, `Restart` or spawned loop. -/
theorem Add_covered_is_noop (childOf : String → String → Bool) (d : darwinNotify)
    (P1 P2 : String) (hmem : P1 ∈ d.stream.Paths) (hchild : childOf P2 P1 = true) :
    (Add childOf d P2).2 = none ∧ (Add childOf d P2).1 = d ∧
      (Add childOf d P2).1.stream.Paths = d.stream.Paths ∧
      (Add childOf d P2).1.trace = d.trace := by
  have h : isCovered childOf P2 d.stream.Paths = true :=
    (isCovered_eq_true_iff childOf P2 d.stream.Paths).mpr ⟨P1, hmem, hchild⟩
  rw [Add_of_covered childOf d P2 h]
  exact ⟨rfl, rfl, rfl, rfl⟩

/-- Witness of C1: after `Add "/a"`, the call `Add "/a/b"` leaves the registry
`["/a"]` and the trace of the first call. -/
theorem Add_covered_is_noop_witness :
    "/a" ∈ (Add pathIsChildOf NewWatcher.1 "/a").1.stream.Paths ∧
      pathIsChildOf "/a/b" "/a" = true ∧
      (Add pathIsChildOf NewWatcher.1 "/a").1.stream.Paths = ["/a"] ∧
      ((Add pathIsChildOf (Add pathIsChildOf NewWatcher.1 "/a").1 "/a/b").2 = none ∧
        (Add pathIsChildOf (Add pathIsChildOf NewWatcher.1 "/a").1 "/a/b").1 =
          (Add pathIsChildOf NewWatcher.1 "/a").1 ∧
        (Add pathIsChildOf (Add pathIsChildOf NewWatcher.1 "/a").1 "/a/b").1.stream.Paths =
          (Add pathIsChildOf NewWatcher.1 "/a").1.stream.Paths ∧
        (Add pathIsChildOf (Add pathIsChildOf NewWatcher.1 "/a").1 "/a/b").1.trace =
          (Add pathIsChildOf NewWatcher.1 "/a").1.trace) :=
  ⟨by decide, by decide, by decide,
    Add_covered_is_noop pathIsChildOf (Add pathIsChildOf NewWatcher.1 "/a").1 "/a" "/a/b"
      (by decide) (by decide)⟩

/-- C2. Adding a path that is a child of no entry of the registry returns a nil
error and appends the path at the end of the registry. On an empty registry
the call spawns the loop and then starts the stream, and does not restart it;
on a non-empty registry it restarts the stream once, and neither starts it nor
spawns a loop. The channels are left as they were. -/
theorem Add_uncovered_appends (childOf : String → String → Bool) (d : darwinNotify)
    (P : String) (h : ∀ parent ∈ d.stream.Paths, childOf P parent = false) :
    (Add childOf d P).2 = none ∧
      (Add childOf d P).1.stream.Paths = d.stream.Paths ++ [P] ∧
      (d.stream.Paths = [] →
        (Add childOf d P).1.trace = d.trace ++ [Effect.spawnLoop, Effect.Start]) ∧
      (d.stream.Paths ≠ [] → (Add childOf d P).1.trace = d.trace ++ [Effect.Restart]) ∧
      (Add childOf d P).1.events = d.events ∧ (Add childOf d P).1.errors = d.errors ∧
      (Add childOf d P).1.stop = d.stop := by
  have hc : isCovered childOf P d.stream.Paths = false :=
    (isCovered_eq_false_iff childOf P d.stream.Paths).mpr h
  by_cases he : d.stream.Paths = []
  · rw [Add_of_not_covered_empty childOf d P hc he]
    exact ⟨rfl, rfl, fun _ => rfl, fun hne => absurd he hne, rfl, rfl, rfl⟩
  · rw [Add_of_not_covered_nonempty childOf d P hc he]
    exact ⟨rfl, rfl, fun hempty => absurd hempty he, fun _ => rfl, rfl, rfl, rfl⟩

/-- Witness of C2: `Add "/a"` then `Add "/b"` gives the registry `["/a", "/b"]`,
and the second call adds exactly one `Restart` to the trace. -/
theorem Add_uncovered_appends_witness :
    (Add pathIsChildOf NewWatcher.1 "/a").1.stream.Paths = ["/a"] ∧
      (Add pathIsChildOf NewWatcher.1 "/a").1.trace = [Effect.spawnLoop, Effect.Start] ∧
      (Add pathIsChildOf (Add pathIsChildOf NewWatcher.1 "/a").1 "/b").1.stream.Paths
        = ["/a", "/b"] ∧
      (Add pathIsChildOf (Add pathIsChildOf NewWatcher.1 "/a").1 "/b").1.trace
        = [Effect.spawnLoop, Effect.Start, Effect.Restart] :=
  ⟨by decide, by decide,
    (Add_uncovered_appends pathIsChildOf (Add pathIsChildOf NewWatcher.1 "/a").1 "/b"
      (by decide)).2.1,
    (Add_uncovered_appends pathIsChildOf (Add pathIsChildOf NewWatcher.1 "/a").1 "/b"
      (by decide)).2.2.2.1 (by decide)⟩

/-- The two cases of `Add`, by the result of its range loop. -/
theorem Add_cases (childOf : String → String → Bool) (d : darwinNotify) (name : String) :
    (isCovered childOf name d.stream.Paths = true ∧ (Add childOf d name).1 = d) ∨
    (isCovered childOf name d.stream.Paths = false ∧
      (Add childOf d name).1.stream.Paths = d.stream.Paths ++ [name] ∧
      (Add childOf d name).1.trace =
        d.trace ++ (if d.stream.Paths = [] then [Effect.spawnLoop, Effect.Start]
                    else [Effect.Restart])) := by
  cases h : isCovered childOf name d.stream.Paths with
  | true => left; rw [Add_of_covered childOf d name h]; exact ⟨rfl, rfl⟩
  | false =>
    right
    by_cases he : d.stream.Paths = []
    · rw [Add_of_not_covered_empty childOf d name h he]; simp [he]
    · rw [Add_of_not_covered_nonempty childOf d name h he]; simp [he]

/-- One `Add` keeps every entry of the registry from being a child of an
earlier one. -/
theorem Add_pairwise (childOf : String → String → Bool) (d : darwinNotify) (name : String)
    (h : d.stream.Paths.Pairwise (fun earlier later => childOf later earlier = false)) :
    (Add childOf d name).1.stream.Paths.Pairwise
      (fun earlier later => childOf later earlier = false) := by
  rcases Add_cases childOf d name with ⟨_, heq⟩ | ⟨hc, hp, _⟩
  · rw [heq]; exact h
  · rw [hp, List.pairwise_append]
    refine ⟨h, List.pairwise_singleton _ _, ?_⟩
    intro a ha b hb
    rw [List.mem_singleton] at hb
    subst hb
    exact (isCovered_eq_false_iff childOf b d.stream.Paths).mp hc a ha

theorem addAll_pairwise (childOf : String → String → Bool) (names : List String) :
    ∀ d : darwinNotify,
      d.stream.Paths.Pairwise (fun earlier later => childOf later earlier = false) →
      (addAll childOf d names).stream.Paths.Pairwise
        (fun earlier later => childOf later earlier = false) := by
  induction names with
  | nil => intro d h; exact h
  | cons name names ih => intro d h; exact ih _ (Add_pairwise childOf d name h)

/-- Counterexample to C3: `Add "/a/b"` then `Add "/a"` on a fresh watcher gives
the registry `["/a/b", "/a"]`, whose entry 0 is a child of its entry 1. The
same registry results with every helper that does not take `"/a"` for a child
of `"/a/b"`. -/
theorem registry_holds_ancestor_after_descendant :
    (addAll pathIsChildOf NewWatcher.1 ["/a/b", "/a"]).stream.Paths = ["/a/b", "/a"] ∧
      (0 : Nat) ≠ 1 ∧
      (addAll pathIsChildOf NewWatcher.1 ["/a/b", "/a"]).stream.Paths[0]? = some "/a/b" ∧
      (addAll pathIsChildOf NewWatcher.1 ["/a/b", "/a"]).stream.Paths[1]? = some "/a" ∧
      pathIsChildOf "/a/b" "/a" = true ∧
      ∀ childOf : String → String → Bool, childOf "/a" "/a/b" = false →
        (addAll childOf NewWatcher.1 ["/a/b", "/a"]).stream.Paths = ["/a/b", "/a"] := by
  refine ⟨by decide, by decide, by decide, by decide, by decide, ?_⟩
  intro childOf h
  simp [addAll, Add, isCovered, NewWatcher, h]

/-- C3, amended. In every state reached from a fresh watcher by a sequence of
`Add` calls, no entry of the registry is a child of an entry at an earlier
position: for `i < j`, `pathIsChildOf(Paths[j], Paths[i])` is false. -/
theorem registry_entry_not_child_of_earlier (childOf : String → String → Bool)
    (names : List String) (i j : Nat) (p q : String) (hij : i < j)
    (hi : (addAll childOf NewWatcher.1 names).stream.Paths[i]? = some p)
    (hj : (addAll childOf NewWatcher.1 names).stream.Paths[j]? = some q) :
    childOf q p = false := by
  have hpw := addAll_pairwise childOf names NewWatcher.1 List.Pairwise.nil
  rw [List.pairwise_iff_getElem] at hpw
  obtain ⟨hi', hip⟩ := List.getElem?_eq_some.mp hi
  obtain ⟨hj', hjq⟩ := List.getElem?_eq_some.mp hj
  have := hpw i j hi' hj' hij
  rw [hip, hjq] at this
  exact this

/-- Witness of the amended C3: after `Add "/a/b"`, `Add "/a"`, the later entry
`"/a"` is not a child of the earlier entry `"/a/b"`. -/
theorem registry_entry_not_child_of_earlier_witness :
    (0 : Nat) < 1 ∧
      (addAll pathIsChildOf NewWatcher.1 ["/a/b", "/a"]).stream.Paths[0]? = some "/a/b" ∧
      (addAll pathIsChildOf NewWatcher.1 ["/a/b", "/a"]).stream.Paths[1]? = some "/a" ∧
      pathIsChildOf "/a" "/a/b" = false :=
  ⟨by decide, by decide, by decide,
    registry_entry_not_child_of_earlier pathIsChildOf ["/a/b", "/a"] 0 1 "/a/b" "/a"
      (by decide) (by decide) (by decide)⟩

theorem Add_startedOnce (childOf : String → String → Bool) (d : darwinNotify) (name : String)
    (h : startedOnce d) : startedOnce (Add childOf d name).1 := by
  rcases Add_cases childOf d name with ⟨_, heq⟩ | ⟨_, hp, ht⟩
  · rw [heq]; exact h
  · right
    rcases h with ⟨he, hte⟩ | ⟨hne, h1, h2, h3⟩
    · rw [hp, ht, he, hte]
      simp
    · rw [hp, ht]
      simp [hne, List.count_append, h1, h2, h3]

theorem addAll_startedOnce (childOf : String → String → Bool) (names : List String) :
    ∀ d : darwinNotify, startedOnce d → startedOnce (addAll childOf d names) := by
  induction names with
  | nil => intro d h; exact h
  | cons name names ih => intro d h; exact ih _ (Add_startedOnce childOf d name h)

/-- C4. After any sequence of `Add` calls on a fresh watcher, the loop has been
spawned at most once and the stream started at most once, each exactly once if
and only if the registry is not empty, and the number of restarts is the
length of the registry minus one (zero for the empty registry). -/
theorem Add_sequence_starts_once (childOf : String → String → Bool) (names : List String) :
    (addAll childOf NewWatcher.1 names).trace.count Effect.spawnLoop ≤ 1 ∧
      (addAll childOf NewWatcher.1 names).trace.count Effect.Start ≤ 1 ∧
      ((addAll childOf NewWatcher.1 names).trace.count Effect.spawnLoop = 1 ↔
        (addAll childOf NewWatcher.1 names).stream.Paths ≠ []) ∧
      ((addAll childOf NewWatcher.1 names).trace.count Effect.Start = 1 ↔
        (addAll childOf NewWatcher.1 names).stream.Paths ≠ []) ∧
      (addAll childOf NewWatcher.1 names).trace.count Effect.Restart =
        (addAll childOf NewWatcher.1 names).stream.Paths.length - 1 := by
  have h := addAll_startedOnce childOf names NewWatcher.1 (Or.inl ⟨rfl, rfl⟩)
  rcases h with ⟨he, hte⟩ | ⟨hne, h1, h2, h3⟩
  · rw [he, hte]; simp
  · rw [h1, h2]
    refine ⟨le_refl _, le_refl _, ?_, ?_, ?_⟩
    · simp [hne]
    · simp [hne]
    · omega

/-! ## `Close` -/

/-- The result of `Close` on a watcher whose `errors` and `stop` channels are
open. -/
theorem Close_of_open (d : darwinNotify) (he : d.errors.closed = false)
    (hs : d.stop.closed = false) :
    Close d = .ok ({ d with trace := d.trace ++ [Effect.Stop], errors := { closed := true },
                            stop := { closed := true } }, none) := by
  simp [Close, closeChan, he, hs, bind, Except.bind, pure, Except.pure]

/-- The result of `Close` on a watcher whose `errors` channel is closed. -/
theorem Close_of_errors_closed (d : darwinNotify) (he : d.errors.closed = true) :
    Close d = .error Panic.closeOfClosedChannel := by
  simp [Close, closeChan, he, bind, Except.bind]

/-- A `Close` that returns leaves the `errors` channel closed. -/
theorem errors_closed_of_Close (d d1 : darwinNotify) (r : Option GoError)
    (h : Close d = .ok (d1, r)) : d1.errors.closed = true := by
  cases he : d.errors.closed with
  | true => rw [Close_of_errors_closed d he] at h; cases h
  | false =>
    cases hs : d.stop.closed with
    | true => simp [Close, closeChan, he, hs, bind, Except.bind] at h
    | false =>
      rw [Close_of_open d he hs] at h
      injection h with h
      injection h with h1 _
      rw [← h1]

/-- Counterexample to C7: `Close` on a watcher that was started by `Add "/a"`
returns normally and leaves the event queue open. -/
theorem Close_leaves_events_open :
    ∃ d1 : darwinNotify,
      Close (Add pathIsChildOf NewWatcher.1 "/a").1 = .ok (d1, none) ∧
        d1.events.closed = false ∧ d1.errors.closed = true ∧ d1.stop.closed = true :=
  ⟨_, Close_of_open _ rfl rfl, rfl, rfl, rfl⟩

/-- C7, amended. `Close` on a watcher whose error queue and stop signal are
open returns a nil error, stops the native backend, and closes the error queue
and the stop signal. It does not touch the event queue, nor the registry. -/
theorem Close_closes_errors_and_stop (d : darwinNotify) (he : d.errors.closed = false)
    (hs : d.stop.closed = false) :
    ∃ d1 : darwinNotify,
      Close d = .ok (d1, none) ∧ d1.trace = d.trace ++ [Effect.Stop] ∧
        d1.errors.closed = true ∧ d1.stop.closed = true ∧ d1.events = d.events ∧
        d1.stream = d.stream :=
  ⟨_, Close_of_open d he hs, rfl, rfl, rfl, rfl, rfl⟩

/-- Witness of the amended C7, on a fresh watcher. -/
theorem Close_closes_errors_and_stop_witness :
    NewWatcher.1.errors.closed = false ∧ NewWatcher.1.stop.closed = false ∧
      ∃ d1 : darwinNotify,
        Close NewWatcher.1 = .ok (d1, none) ∧ d1.trace = NewWatcher.1.trace ++ [Effect.Stop] ∧
          d1.errors.closed = true ∧ d1.stop.closed = true ∧ d1.events = NewWatcher.1.events ∧
          d1.stream = NewWatcher.1.stream :=
  ⟨rfl, rfl, Close_closes_errors_and_stop NewWatcher.1 rfl rfl⟩

/-- Counterexample to C8: on a fresh watcher the first `Close` returns
normally and the second one panics with "close of closed channel". -/
theorem second_Close_panics :
    ∃ d1 : darwinNotify,
      Close NewWatcher.1 = .ok (d1, none) ∧ Close d1 = .error Panic.closeOfClosedChannel :=
  ⟨_, Close_of_open _ rfl rfl, Close_of_errors_closed _ rfl⟩

/-- C8, amended. `Close` is not idempotent: whenever a `Close` has returned, a
second `Close` on the resulting watcher does not return but panics, closing the
error queue that is already closed. -/
theorem Close_after_Close_panics (d d1 : darwinNotify) (r : Option GoError)
    (h : Close d = .ok (d1, r)) : Close d1 = .error Panic.closeOfClosedChannel :=
  Close_of_errors_closed d1 (errors_closed_of_Close d d1 r h)

/-- Witness of the amended C8: the two calls on a watcher started by
`Add "/a"`. -/
theorem Close_after_Close_panics_witness :
    Close (Add pathIsChildOf NewWatcher.1 "/a").1 =
        .ok ({ (Add pathIsChildOf NewWatcher.1 "/a").1 with
                trace := [Effect.spawnLoop, Effect.Start, Effect.Stop],
                errors := { closed := true }, stop := { closed := true } }, none) ∧
      Close { (Add pathIsChildOf NewWatcher.1 "/a").1 with
                trace := [Effect.spawnLoop, Effect.Start, Effect.Stop],
                errors := { closed := true }, stop := { closed := true } } =
        .error Panic.closeOfClosedChannel :=
  ⟨Close_of_open _ rfl rfl,
    Close_after_Close_panics (Add pathIsChildOf NewWatcher.1 "/a").1 _ none
      (Close_of_open _ rfl rfl)⟩

/-! ## The exact-match query -/

theorem isTrackingPathRange_iff (path : String) (ps : List String) :
    isTrackingPathRange path ps = true ↔ path ∈ ps := by
  induction ps with
  | nil => simp [isTrackingPathRange]
  | cons p ps ih =>
    by_cases h : p = path
    · simp [isTrackingPathRange, h]
    · have h2 : ¬ path = p := fun e => h e.symm
      simp [isTrackingPathRange, h, h2, ih]

theorem isTrackingPath_iff (d : darwinNotify) (path : String) :
    (isTrackingPath d path).2 = true ↔ path ∈ d.stream.Paths :=
  isTrackingPathRange_iff path d.stream.Paths

/-- The body of the loop sends the record when its normalized path is not an
entry of the registry. -/
theorem loopBody_of_not_tracked (d : darwinNotify) (ignored : List String) (e : Event)
    (h : normalized e ∉ d.stream.Paths) :
    loopBody d ignored e = (ignored, some { Path := normalized e }) := by
  have ht : (isTrackingPath d (filepathJoin ["/", e.Path])).2 = false := by
    cases hb : (isTrackingPath d (filepathJoin ["/", e.Path])).2 with
    | false => rfl
    | true => exact absurd ((isTrackingPath_iff d _).mp hb) h
  simp [loopBody, normalized, ht]

/-- C10. `isTrackingPath` answers true exactly when the path is string-equal to
an entry of the registry, and returns the watcher unchanged. With the registry
`["/a"]` it answers false for `"/a/b"`. A record whose normalized path is not
itself an entry of the registry, a descendant of a watched root included, is
never suppressed, whatever its flags and whatever was suppressed before. -/
theorem isTrackingPath_is_exact_match :
    (∀ (d : darwinNotify) (path : String),
      ((isTrackingPath d path).2 = true ↔ path ∈ d.stream.Paths) ∧
        (isTrackingPath d path).1 = d) ∧
    (Add pathIsChildOf NewWatcher.1 "/a").1.stream.Paths = ["/a"] ∧
    pathIsChildOf "/a/b" "/a" = true ∧
    (isTrackingPath (Add pathIsChildOf NewWatcher.1 "/a").1 "/a/b").2 = false ∧
    (∀ (d : darwinNotify) (ignored : List String) (e : Event),
      normalized e ∉ d.stream.Paths →
        loopBody d ignored e = (ignored, some { Path := normalized e })) ∧
    loopBody (Add pathIsChildOf NewWatcher.1 "/a").1 []
        { Path := "/a/b", Flags := ItemCreated, ID := 1 } = ([], some { Path := "/a/b" }) :=
  ⟨fun d path => ⟨isTrackingPath_iff d path, rfl⟩, by decide, by decide, by decide,
    loopBody_of_not_tracked, by decide⟩

/-- Witness of C10: the record for `"/a/b"` against the registry `["/a"]`. -/
theorem isTrackingPath_is_exact_match_witness :
    normalized { Path := "/a/b", Flags := ItemCreated, ID := 1 } ∉
        (Add pathIsChildOf NewWatcher.1 "/a").1.stream.Paths ∧
      loopBody (Add pathIsChildOf NewWatcher.1 "/a").1 []
          { Path := "/a/b", Flags := ItemCreated, ID := 1 } =
        ([], some { Path := normalized { Path := "/a/b", Flags := ItemCreated, ID := 1 } }) :=
  ⟨by decide,
    isTrackingPath_is_exact_match.2.2.2.2.1 (Add pathIsChildOf NewWatcher.1 "/a").1 []
      { Path := "/a/b", Flags := ItemCreated, ID := 1 } (by decide)⟩

/-! ## The dispatch loop -/

/-- The body of the loop, by cases: the record is dropped, and its path
entered in the map, when it has the created flag, its normalized path is not
in the map and is an entry of the registry; in every other case it is sent and
the map is unchanged. -/
theorem loopBody_eq (d : darwinNotify) (ignored : List String) (e : Event) :
    loopBody d ignored e =
      if isItemCreated e = true ∧ normalized e ∉ ignored ∧ normalized e ∈ d.stream.Paths then
        (normalized e :: ignored, none)
      else (ignored, some { Path := normalized e }) := by
  by_cases hc : (e.Flags &&& ItemCreated == ItemCreated) = true
  · by_cases hi : filepathJoin ["/", e.Path] ∈ ignored
    · simp [loopBody, isItemCreated, normalized, hc, hi]
    · cases ht : (isTrackingPath d (filepathJoin ["/", e.Path])).2 with
      | true =>
        have hm := (isTrackingPath_iff d _).mp ht
        simp [loopBody, isItemCreated, normalized, hc, hi, ht, hm]
      | false =>
        have hm : filepathJoin ["/", e.Path] ∉ d.stream.Paths := by
          intro hmem
          rw [(isTrackingPath_iff d _).mpr hmem] at ht
          cases ht
        simp [loopBody, isItemCreated, normalized, hc, hi, ht, hm]
  · simp [loopBody, isItemCreated, normalized, hc]

theorem loopBody_snd_eq_none_iff (d : darwinNotify) (ignored : List String) (e : Event) :
    (loopBody d ignored e).2 = none ↔
      isItemCreated e = true ∧ normalized e ∉ ignored ∧ normalized e ∈ d.stream.Paths := by
  rw [loopBody_eq]
  split <;> simp_all

theorem loopBody_snd_of_not_none (d : darwinNotify) (ignored : List String) (e : Event)
    (h : ¬ (isItemCreated e = true ∧ normalized e ∉ ignored ∧ normalized e ∈ d.stream.Paths)) :
    (loopBody d ignored e).2 = some { Path := normalized e } := by
  rw [loopBody_eq, if_neg h]

theorem mem_loopBody_fst_iff (d : darwinNotify) (ignored : List String) (e : Event)
    (p : String) :
    p ∈ (loopBody d ignored e).1 ↔
      p ∈ ignored ∨ (normalized e = p ∧ (loopBody d ignored e).2 = none) := by
  rw [loopBody_eq]
  split
  · simp [eq_comm, or_comm]
  · simp

theorem loopEvents_append (ignored : List String) (a b : List (darwinNotify × Event)) :
    loopEvents ignored (a ++ b) =
      ((loopEvents (loopEvents ignored a).1 b).1,
        (loopEvents ignored a).2 ++ (loopEvents (loopEvents ignored a).1 b).2) := by
  induction a generalizing ignored with
  | nil => simp [loopEvents]
  | cons x a ih =>
    obtain ⟨d, e⟩ := x
    simp [loopEvents, ih]

/-- The outcomes of `loop` are those of its body run over the processed
records in one sequence. -/
theorem loopFrom_eq (ignored : List String) (received : List Select) :
    loopFrom ignored received = (loopEvents ignored (processed received)).2 := by
  induction received generalizing ignored with
  | nil => simp [loopFrom, processed, loopEvents]
  | cons s rest ih =>
    cases s with
    | stop => simp [loopFrom, processed, loopEvents]
    | closed => simp [loopFrom, processed, loopEvents]
    | recv events => simp [loopFrom, processed, loopEvents_append, ih]

/-- The outcome of the record at index `k` is that of the body run on it with
the map left by the records before it. -/
theorem loopEvents_getElem? (evs : List (darwinNotify × Event)) :
    ∀ (ignored : List String) (k : Nat) (x : darwinNotify × Event), evs[k]? = some x →
      (loopEvents ignored evs).2[k]? =
        some (loopBody x.1 (loopEvents ignored (evs.take k)).1 x.2).2 := by
  induction evs with
  | nil => intro ignored k x h; simp at h
  | cons y evs ih =>
    intro ignored k x h
    obtain ⟨d, e⟩ := y
    cases k with
    | zero =>
      simp at h
      subst h
      simp [loopEvents]
    | succ k =>
      simp at h
      simp [loopEvents, ih _ k x h]

/-- The map after a sequence of records holds what it held before and the
normalized path of every record that was dropped. -/
theorem mem_loopEvents_fst_iff (evs : List (darwinNotify × Event)) :
    ∀ (ignored : List String) (p : String),
      p ∈ (loopEvents ignored evs).1 ↔
        p ∈ ignored ∨ ∃ (i : Nat) (y : darwinNotify × Event), evs[i]? = some y ∧
          normalized y.2 = p ∧
          (loopBody y.1 (loopEvents ignored (evs.take i)).1 y.2).2 = none := by
  induction evs with
  | nil => intro ignored p; simp [loopEvents]
  | cons x evs ih =>
    intro ignored p
    obtain ⟨d, e⟩ := x
    simp only [loopEvents]
    rw [ih, mem_loopBody_fst_iff]
    constructor
    · rintro ((h | ⟨h1, h2⟩) | ⟨i, y, h1, h2, h3⟩)
      · exact Or.inl h
      · exact Or.inr ⟨0, (d, e), by simp, h1, by simpa [loopEvents] using h2⟩
      · exact Or.inr ⟨i + 1, y, by simpa using h1, h2, by simpa [loopEvents] using h3⟩
    · rintro (h | ⟨i, y, h1, h2, h3⟩)
      · exact Or.inl (Or.inl h)
      · cases i with
        | zero =>
          simp at h1
          subst h1
          exact Or.inl (Or.inr ⟨h2, by simpa [loopEvents] using h3⟩)
        | succ i =>
          exact Or.inr ⟨i, y, by simpa using h1, h2, by simpa [loopEvents] using h3⟩

/-- The map seen by the record at index `k` holds a path exactly when the path
was in the map at the start or an earlier record with that normalized path was
dropped. -/
theorem mem_ignored_before_iff (evs : List (darwinNotify × Event)) (ignored : List String)
    (k : Nat) (p : String) :
    p ∈ (loopEvents ignored (evs.take k)).1 ↔
      p ∈ ignored ∨ ∃ (i : Nat) (y : darwinNotify × Event), i < k ∧ evs[i]? = some y ∧
        normalized y.2 = p ∧ (loopEvents ignored evs).2[i]? = some none := by
  rw [mem_loopEvents_fst_iff]
  constructor
  · rintro (h | ⟨i, y, h1, h2, h3⟩)
    · exact Or.inl h
    · rw [List.getElem?_take] at h1
      split at h1
      · rename_i hik
        refine Or.inr ⟨i, y, hik, h1, h2, ?_⟩
        rw [loopEvents_getElem? evs ignored i y h1]
        rw [List.take_take, Nat.min_eq_left (Nat.le_of_lt hik)] at h3
        rw [h3]
      · cases h1
  · rintro (h | ⟨i, y, hik, h1, h2, h3⟩)
    · exact Or.inl h
    · refine Or.inr ⟨i, y, ?_, h2, ?_⟩
      · rw [List.getElem?_take, if_pos hik]; exact h1
      · rw [loopEvents_getElem? evs ignored i y h1] at h3
        rw [List.take_take, Nat.min_eq_left (Nat.le_of_lt hik)]
        exact Option.some.inj h3

/-- The record at index `k` is dropped exactly when it has the created flag,
its normalized path is an entry of the registry, the path was not in the map
at the start, and no earlier record with that normalized path was dropped. -/
theorem loopEvents_dropped_iff (evs : List (darwinNotify × Event)) (ignored : List String)
    (k : Nat) (x : darwinNotify × Event) (hk : evs[k]? = some x) :
    (loopEvents ignored evs).2[k]? = some none ↔
      isItemCreated x.2 = true ∧ normalized x.2 ∈ x.1.stream.Paths ∧
        normalized x.2 ∉ ignored ∧
        ¬ ∃ (i : Nat) (y : darwinNotify × Event), i < k ∧ evs[i]? = some y ∧
          normalized y.2 = normalized x.2 ∧ (loopEvents ignored evs).2[i]? = some none := by
  rw [loopEvents_getElem? evs ignored k x hk]
  simp only [Option.some.injEq]
  rw [loopBody_snd_eq_none_iff, mem_ignored_before_iff]
  constructor
  · rintro ⟨hc, hn, ht⟩
    exact ⟨hc, ht, fun h => hn (Or.inl h), fun h => hn (Or.inr h)⟩
  · rintro ⟨hc, ht, hi, he⟩
    exact ⟨hc, fun h => h.elim hi he, ht⟩

/-- A record that is not dropped is sent under its normalized path. -/
theorem loopEvents_sent_of_not_dropped (evs : List (darwinNotify × Event))
    (ignored : List String) (k : Nat) (x : darwinNotify × Event) (hk : evs[k]? = some x)
    (h : (loopEvents ignored evs).2[k]? ≠ some none) :
    (loopEvents ignored evs).2[k]? = some (some { Path := normalized x.2 }) := by
  rw [loopEvents_getElem? evs ignored k x hk] at h ⊢
  by_cases hc : isItemCreated x.2 = true ∧
      normalized x.2 ∉ (loopEvents ignored (evs.take k)).1 ∧ normalized x.2 ∈ x.1.stream.Paths
  · exact absurd (congrArg some ((loopBody_snd_eq_none_iff _ _ _).mpr hc)) h
  · rw [loopBody_snd_of_not_none _ _ _ hc]

/-- The events sent are, in order, events of the records: the list of sends is
a sublist of the list of the records' events. -/
theorem sent_loopEvents_sublist (evs : List (darwinNotify × Event)) :
    ∀ ignored : List String,
      (sent (loopEvents ignored evs).2).Sublist
        (evs.map (fun x => ({ Path := normalized x.2 } : FileEvent))) := by
  induction evs with
  | nil => intro ignored; simp [loopEvents, sent]
  | cons x evs ih =>
    intro ignored
    obtain ⟨d, e⟩ := x
    simp only [loopEvents, sent, List.map_cons]
    rw [loopBody_eq]
    split
    · simp only [List.reduceOption_cons_of_none]
      exact List.Sublist.cons _ (ih _)
    · simp only [List.reduceOption_cons_of_some]
      exact List.Sublist.cons₂ _ (ih _)

theorem loopEvents_length (evs : List (darwinNotify × Event)) :
    ∀ ignored : List String, (loopEvents ignored evs).2.length = evs.length := by
  induction evs with
  | nil => intro ignored; simp [loopEvents]
  | cons x evs ih => intro ignored; obtain ⟨d, e⟩ := x; simp [loopEvents, ih]

/-! ## Normalized paths -/

theorem rootedBuf_append (out : lazybuf) (dotdot : Nat) (c : Char) (h : rootedBuf out dotdot) :
    rootedBuf (out.append c) dotdot := by
  obtain ⟨h1, h2, h3⟩ := h
  refine ⟨h1, by simp [lazybuf.append]; omega, ?_⟩
  obtain ⟨buf, w⟩ := out
  cases buf with
  | nil => simp at h3
  | cons b buf =>
    cases w with
    | zero => simp at h2; omega
    | succ w => simpa [lazybuf.append] using h3

theorem le_backtrack (out : lazybuf) (dotdot : Nat) :
    ∀ w : Nat, dotdot ≤ w → dotdot ≤ backtrack out dotdot w := by
  intro w
  induction w with
  | zero => intro h; simpa [backtrack] using h
  | succ w ih =>
    intro h
    rw [backtrack]
    split
    · rename_i hc
      simp at hc
      exact ih (by omega)
    · exact h

theorem rootedBuf_cleanDotDot (out : lazybuf) (dotdot : Nat) (h : rootedBuf out dotdot) :
    rootedBuf (cleanDotDot true out dotdot).1 (cleanDotDot true out dotdot).2 := by
  obtain ⟨h1, h2, h3⟩ := h
  unfold cleanDotDot
  split
  · rename_i hw
    exact ⟨h1, le_backtrack _ _ _ (by omega), h3⟩
  · exact ⟨h1, h2, h3⟩

theorem rootedBuf_cleanLoop (n : Nat) :
    ∀ path : List Char, path.length ≤ n → ∀ (inElem : Bool) (out : lazybuf) (dotdot : Nat),
      rootedBuf out dotdot → ∃ dd, rootedBuf (cleanLoop true inElem out dotdot path) dd := by
  induction n with
  | zero =>
    intro path hl inElem out dotdot h
    cases path with
    | nil => cases inElem <;> exact ⟨dotdot, by simpa [cleanLoop] using h⟩
    | cons c rest => simp at hl
  | succ n ih =>
    intro path hl inElem out dotdot h
    cases path with
    | nil => cases inElem <;> exact ⟨dotdot, by simpa [cleanLoop] using h⟩
    | cons c rest =>
      have hr : rest.length ≤ n := by simpa using hl
      cases inElem with
      | true =>
        rw [cleanLoop]
        split
        · exact ih rest hr _ _ _ h
        · exact ih rest hr _ _ _ (rootedBuf_append _ _ _ h)
      | false =>
        cases rest with
        | nil =>
          rw [cleanLoop]
          split
          · exact ⟨dotdot, h⟩
          · split
            · exact ⟨dotdot, h⟩
            · refine ⟨dotdot, ?_⟩
              apply rootedBuf_append
              split
              · exact rootedBuf_append _ _ _ h
              · exact h
        | cons c1 rest2 =>
          have hr2 : rest2.length ≤ n := by simp at hr; omega
          rw [cleanLoop]
          split
          · exact ih _ hr _ _ _ h
          · split
            · exact ih _ hr _ _ _ h
            · split
              · exact ih rest2 hr2 _ _ _ (rootedBuf_cleanDotDot _ _ h)
              · apply ih (c1 :: rest2) hr
                apply rootedBuf_append
                split
                · exact rootedBuf_append _ _ _ h
                · exact h

theorem cleanChars_rooted (rest : List Char) :
    ∃ tail, cleanChars ('/' :: rest) = '/' :: tail := by
  have h0 : rootedBuf (lazybuf.append ⟨[], 0⟩ '/') 1 := by
    refine ⟨le_refl _, ?_, ?_⟩ <;> simp [lazybuf.append]
  obtain ⟨dd, h1, h2, h3⟩ := rootedBuf_cleanLoop rest.length rest (le_refl _) false _ 1 h0
  have hw : 1 ≤ (cleanLoop true false (lazybuf.append ⟨[], 0⟩ '/') 1 rest).w := le_trans h1 h2
  simp only [cleanChars, isPathSeparator, beq_self_eq_true, if_true]
  generalize cleanLoop true false (lazybuf.append ⟨[], 0⟩ '/') 1 rest = out at h3 hw
  obtain ⟨buf, w⟩ := out
  have hw0 : (w == 0) = false := by simp at hw ⊢; omega
  simp only [hw0, lazybuf.string]
  cases buf with
  | nil => simp at h3
  | cons b buf =>
    cases w with
    | zero => simp at hw
    | succ w =>
      simp at h3
      exact ⟨buf.take w, by simp [h3]⟩

theorem filepathJoin_root (r : String) :
    ∃ rest : String, filepathJoin ["/", r] = "/" ++ rest := by
  obtain ⟨tail, ht⟩ := cleanChars_rooted ('/' :: r.data)
  refine ⟨String.mk tail, ?_⟩
  have hd : (stringsJoin ["/", r]).data = '/' :: '/' :: r.data := by
    simp [stringsJoin]
  have : filepathJoin ["/", r] = String.mk (cleanChars ('/' :: '/' :: r.data)) := by
    simp [filepathJoin, filepathClean, hd]
  rw [this, ht]
  apply String.ext
  simp

/-! ## What the loop delivers -/

/-- C5. In a run of the loop during which `P` is an entry of the registry, the
first record with the created flag and the normalized path `P` is dropped, and
every other record with the normalized path `P` is sent as the event of path
`P`: the records before it, and every record after it, a second created
record included. So one record is dropped for `P`, and no more. -/
theorem first_created_record_dropped_once (received : List Select) (P : String) (k : Nat)
    (x : darwinNotify × Event)
    (htracked : ∀ y ∈ processed received, P ∈ y.1.stream.Paths)
    (hk : (processed received)[k]? = some x) (hP : normalized x.2 = P)
    (hc : isItemCreated x.2 = true)
    (hfirst : ∀ (i : Nat) (y : darwinNotify × Event), i < k →
      (processed received)[i]? = some y → normalized y.2 = P → isItemCreated y.2 = false) :
    (loop received)[k]? = some none ∧
      ∀ (j : Nat) (y : darwinNotify × Event), j ≠ k → (processed received)[j]? = some y →
        normalized y.2 = P → (loop received)[j]? = some (some { Path := P }) := by
  have hdrop : (loopEvents [] (processed received)).2[k]? = some none := by
    rw [loopEvents_dropped_iff _ _ k x hk]
    refine ⟨hc, ?_, by simp, ?_⟩
    · rw [hP]; exact htracked x (List.getElem?_mem hk)
    · rintro ⟨i, y, hik, hy, hyP, hd⟩
      have hcy := ((loopEvents_dropped_iff _ _ i y hy).mp hd).1
      rw [hfirst i y hik hy (hyP.trans hP)] at hcy
      cases hcy
  unfold loop
  rw [loopFrom_eq]
  refine ⟨hdrop, ?_⟩
  intro j y hjk hy hyP
  rw [← hyP]
  apply loopEvents_sent_of_not_dropped _ _ j y hy
  intro hd
  have hj := (loopEvents_dropped_iff _ _ j y hy).mp hd
  rcases Nat.lt_or_gt_of_ne hjk with hlt | hgt
  · have := hfirst j y hlt hy hyP
    rw [hj.1] at this
    cases this
  · exact hj.2.2.2 ⟨k, x, hgt, hk, hP.trans hyP.symm, hdrop⟩

/-- Witness of C5: with `"/a"` registered, of two created records for `"/a"`
the first is dropped and the second is sent. -/
theorem first_created_record_dropped_once_witness :
    (loop [Select.recv [(watchingA, { Path := "/a", Flags := ItemCreated, ID := 1 }),
        (watchingA, { Path := "/a", Flags := ItemCreated, ID := 2 })]])[0]? = some none ∧
      (loop [Select.recv [(watchingA, { Path := "/a", Flags := ItemCreated, ID := 1 }),
        (watchingA, { Path := "/a", Flags := ItemCreated, ID := 2 })]])[1]? =
          some (some { Path := "/a" }) :=
  have h := first_created_record_dropped_once
    [Select.recv [(watchingA, { Path := "/a", Flags := ItemCreated, ID := 1 }),
      (watchingA, { Path := "/a", Flags := ItemCreated, ID := 2 })]] "/a" 0
    (watchingA, { Path := "/a", Flags := ItemCreated, ID := 1 })
    (by decide) (by decide) (by decide) (by decide)
    (fun i _ hi => absurd hi (Nat.not_lt_zero i))
  ⟨h.1, h.2 1 (watchingA, { Path := "/a", Flags := ItemCreated, ID := 2 }) (by decide)
    (by decide) (by decide)⟩

/-- The events sent are exactly the events of the records that are not
dropped, in the order of the records. -/
theorem sent_loopEvents_eq (evs : List (darwinNotify × Event)) :
    ∀ ignored : List String,
      sent (loopEvents ignored evs).2 =
        ((evs.zip (loopEvents ignored evs).2).filter (fun z => z.2.isSome)).map
          (fun z => ({ Path := normalized z.1.2 } : FileEvent)) := by
  induction evs with
  | nil => intro ignored; simp [loopEvents, sent]
  | cons x evs ih =>
    intro ignored
    obtain ⟨d, e⟩ := x
    have h := ih (loopBody d ignored e).1
    simp only [sent] at h
    simp only [loopEvents, sent, List.zip_cons_cons]
    by_cases hc : isItemCreated e = true ∧ normalized e ∉ ignored ∧ normalized e ∈ d.stream.Paths
    · have h2 : (loopBody d ignored e).2 = none := (loopBody_snd_eq_none_iff d ignored e).mpr hc
      rw [h2, List.reduceOption_cons_of_none, h]
      simp
    · have h2 := loopBody_snd_of_not_none d ignored e hc
      rw [h2, List.reduceOption_cons_of_some, h]
      simp

/-- C6. In a run of the loop each record has one outcome, and a record that the
startup filter does not drop, because it lacks the created flag, or its
normalized path is not an entry of the registry, or an earlier record with the
same normalized path was dropped, has the outcome of one event whose path is
its normalized path. The events sent are those of the records that are not
dropped, in the order of the records. -/
theorem undropped_record_sent_in_order (received : List Select) :
    (loop received).length = (processed received).length ∧
      (∀ (k : Nat) (x : darwinNotify × Event), (processed received)[k]? = some x →
        (isItemCreated x.2 = false ∨ normalized x.2 ∉ x.1.stream.Paths ∨
          ∃ (i : Nat) (y : darwinNotify × Event), i < k ∧ (processed received)[i]? = some y ∧
            normalized y.2 = normalized x.2 ∧ (loop received)[i]? = some none) →
        (loop received)[k]? = some (some { Path := normalized x.2 })) ∧
      sent (loop received) =
        (((processed received).zip (loop received)).filter (fun z => z.2.isSome)).map
          (fun z => ({ Path := normalized z.1.2 } : FileEvent)) ∧
      (sent (loop received)).Sublist
        ((processed received).map (fun x => ({ Path := normalized x.2 } : FileEvent))) := by
  unfold loop
  rw [loopFrom_eq]
  refine ⟨loopEvents_length _ _, ?_, sent_loopEvents_eq _ _, sent_loopEvents_sublist _ _⟩
  intro k x hk h
  apply loopEvents_sent_of_not_dropped _ _ k x hk
  intro hd
  have hx := (loopEvents_dropped_iff _ _ k x hk).mp hd
  rcases h with h | h | h
  · rw [hx.1] at h; cases h
  · exact h hx.2.1
  · exact hx.2.2.2 h

/-- Witness of C6: with `"/a"` registered, the created record for
`"/a/file.txt"` gives exactly the event of path `"/a/file.txt"`. -/
theorem undropped_record_sent_in_order_witness :
    (loop [Select.recv [(watchingA, { Path := "/a/file.txt", Flags := ItemCreated, ID := 1 })]])[0]?
        = some (some { Path := "/a/file.txt" }) ∧
      sent (loop
        [Select.recv [(watchingA, { Path := "/a/file.txt", Flags := ItemCreated, ID := 1 })]]) =
        [{ Path := "/a/file.txt" }] :=
  ⟨(undropped_record_sent_in_order
      [Select.recv [(watchingA, { Path := "/a/file.txt", Flags := ItemCreated, ID := 1 })]]).2.1
      0 (watchingA, { Path := "/a/file.txt", Flags := ItemCreated, ID := 1 }) (by decide)
      (Or.inr (Or.inl (by decide))),
    by decide⟩

/-- C9. `filepath.Join("/", r)` begins with `"/"` for every raw path `r`, and
every event sent by the loop has the path `filepath.Join("/", r)` of a
processed record of raw path `r`, which begins with `"/"`. The raw path
`"foo/bar"` is delivered as `"/foo/bar"`, and the raw path `"/a"` as `"/a"`. -/
theorem delivered_path_is_rooted :
    (∀ r : String, ∃ rest : String, filepathJoin ["/", r] = "/" ++ rest) ∧
      (∀ (received : List Select) (fe : FileEvent), fe ∈ sent (loop received) →
        ∃ x ∈ processed received, fe.Path = filepathJoin ["/", x.2.Path] ∧
          ∃ rest : String, fe.Path = "/" ++ rest) ∧
      filepathJoin ["/", "foo/bar"] = "/foo/bar" ∧ filepathJoin ["/", "/a"] = "/a" ∧
      sent (loop [Select.recv [(watchingA, { Path := "foo/bar", Flags := 0, ID := 1 }),
        (watchingA, { Path := "/a", Flags := 0, ID := 2 })]]) =
        [{ Path := "/foo/bar" }, { Path := "/a" }] := by
  refine ⟨filepathJoin_root, ?_, by decide, by decide, by decide⟩
  intro received fe hfe
  have hsub : (sent (loop received)).Sublist
      ((processed received).map (fun x => ({ Path := normalized x.2 } : FileEvent))) := by
    unfold loop
    rw [loopFrom_eq]
    exact sent_loopEvents_sublist _ _
  obtain ⟨x, hx, hxe⟩ := List.mem_map.mp (hsub.subset hfe)
  refine ⟨x, hx, ?_, ?_⟩
  · rw [← hxe]; rfl
  · rw [← hxe]; exact filepathJoin_root x.2.Path

/-- Witness of C9: the one event sent for the raw path `"foo/bar"`. -/
theorem delivered_path_is_rooted_witness :
    ∃ x ∈ processed [Select.recv [(watchingA, { Path := "foo/bar", Flags := 0, ID := 1 })]],
      ({ Path := "/foo/bar" } : FileEvent).Path = filepathJoin ["/", x.2.Path] ∧
        ∃ rest : String, ({ Path := "/foo/bar" } : FileEvent).Path = "/" ++ rest :=
  delivered_path_is_rooted.2.1
    [Select.recv [(watchingA, { Path := "foo/bar", Flags := 0, ID := 1 })]]
    { Path := "/foo/bar" } (by decide)

end Watch
